import Mathlib

/-!
Verification of the coding-activity simulator (`coder.py`).

The development shallowly embeds the two algorithmic cores of the program:

* the human typing engine `human_type(text, wpm, typo_rate)` (source lines
  393-426), which walks the payload character by character and emits input
  actions (character writes, backspaces, enter/tab presses) interleaved with
  sleeps; and
* the simulation scheduler `simulate` (lines 458-489) together with
  `pick_file` (lines 431-433) and the argument validation in `main`
  (lines 520-523).

Numeric quantities (delays, rates) are modelled as rationals.  Randomness is
modelled by an explicit oracle `Rng`: each kind of random draw made by the
engine is a function of the loop position, and the predicate `Rng.Valid`
records the ranges the library guarantees for each draw (`random.random()`
lands in `[0, 1)`, `random.uniform(a, b)` lands in `[a, b]`; the Gaussian
jitter draw is unconstrained).  Exceptions (`pyautogui.FailSafeException`,
`KeyboardInterrupt`, `IndexError`) are modelled with explicit outcome types.
-/

namespace Coder

/-- One input action realized through the input sink, plus the sleeps the
engine performs between actions.  `pyautogui.write` of a single character is
`writeChar`, `pyautogui.hotkey("backspace")` is `backspace`,
`pyautogui.press("enter")` / `press("tab")` are `pressEnter` / `pressTab`,
and every `time.sleep(d)` is `pause d`. -/
inductive Action where
  | writeChar (c : Char)
  | backspace
  | pressEnter
  | pressTab
  | pause (d : ℚ)
deriving DecidableEq, Repr

/-- The random draws consumed by `human_type`, indexed by the loop position
`i` at which they are made.  Each loop iteration makes at most one draw of
each kind, so indexing by position is a faithful account of the sequential
stream `random` provides. -/
structure Rng where
  /-- the `random.random()` draw deciding whether a typo fires (line 402) -/
  typoDraw : ℕ → ℚ
  /-- the `random.choice` index into the 26 lowercase letters (line 403) -/
  wrongIdx : ℕ → ℕ
  /-- the `random.uniform(0.8, 1.5)` draw after the wrong letter (line 405) -/
  typoPause1 : ℕ → ℚ
  /-- the `random.uniform(1.0, 2.0)` draw after the backspace (line 407) -/
  typoPause2 : ℕ → ℚ
  /-- the `random.uniform(1.5, 3.0)` draw for structural characters (line 411) -/
  structPause : ℕ → ℚ
  /-- the `random.uniform(2.0, 4.0)` draw after a newline (line 414) -/
  nlPause : ℕ → ℚ
  /-- the `random.uniform(0.8, 1.2)` draw after a tab (line 419) -/
  tabPause : ℕ → ℚ
  /-- the `random.gauss(0, base_delay * 0.3)` jitter draw (line 424) -/
  gauss : ℕ → ℚ

/-- The ranges the `random` library guarantees for each draw:
`random.random()` is in `[0, 1)` and `random.uniform(a, b)` is in `[a, b]`.
The Gaussian jitter can be any real, so it is unconstrained. -/
def Rng.Valid (r : Rng) : Prop :=
  (∀ i, 0 ≤ r.typoDraw i ∧ r.typoDraw i < 1) ∧
  (∀ i, 4/5 ≤ r.typoPause1 i ∧ r.typoPause1 i ≤ 3/2) ∧
  (∀ i, 1 ≤ r.typoPause2 i ∧ r.typoPause2 i ≤ 2) ∧
  (∀ i, 3/2 ≤ r.structPause i ∧ r.structPause i ≤ 3) ∧
  (∀ i, 2 ≤ r.nlPause i ∧ r.nlPause i ≤ 4) ∧
  (∀ i, 4/5 ≤ r.tabPause i ∧ r.tabPause i ≤ 6/5)

/-- The string `"abcdefghijklmnopqrstuvwxyz"` that `random.choice` draws the
wrong letter from (line 403). -/
def lowercaseLetters : List Char :=
  ['a', 'b', 'c', 'd', 'e', 'f', 'g', 'h', 'i', 'j', 'k', 'l', 'm',
   'n', 'o', 'p', 'q', 'r', 's', 't', 'u', 'v', 'w', 'x', 'y', 'z']

/-- The result of `random.choice("abcdefghijklmnopqrstuvwxyz")` with draw index `n`. -/
def wrongLetter (n : ℕ) : Char :=
  lowercaseLetters.getD (n % 26) 'a'

/-- The membership test `char in ".:()"` on line 410. -/
def structChar (c : Char) : Bool :=
  c = '.' || c = ':' || c = '(' || c = ')'

/-- One iteration of the `while` loop of `human_type` (lines 398-426) for the
character `c` at position `i`: the optional typo-and-correction block
(lines 402-407), then the structural-pause / newline / tab branch chain
(lines 410-421), falling through to the literal write with jittered delay
(lines 423-425). -/
def stepActs (r : Rng) (base rate : ℚ) (i : ℕ) (c : Char) : List Action :=
  (if c.isAlpha ∧ r.typoDraw i < rate then
    [Action.writeChar (wrongLetter (r.wrongIdx i)),
     Action.pause (base * r.typoPause1 i),
     Action.backspace,
     Action.pause (base * r.typoPause2 i)]
   else []) ++
  (if structChar c then
    [Action.pause (base * r.structPause i),
     Action.writeChar c,
     Action.pause (max (1/100) (base + r.gauss i))]
   else if c = '\n' then
    [Action.pressEnter, Action.pause (base * r.nlPause i)]
   else if c = '\t' then
    [Action.pressTab, Action.pause (base * r.tabPause i)]
   else
    [Action.writeChar c,
     Action.pause (max (1/100) (base + r.gauss i))])

/-- The `while i < len(text)` loop of `human_type`, recursing over the
remaining text with `i` tracking the original position. -/
def humanTypeGo (r : Rng) (base rate : ℚ) : List Char → ℕ → List Action
  | [], _ => []
  | c :: rest, i => stepActs r base rate i c ++ humanTypeGo r base rate rest (i + 1)

/-- The same loop written exactly as the source writes it: an index `i`
advanced by one in every iteration, with an explicit fuel bound on the
number of iterations.  `none` means the fuel ran out before `i` reached
`len(text)`. -/
def humanTypeLoop (r : Rng) (base rate : ℚ) (text : List Char) :
    ℕ → ℕ → Option (List Action)
  | 0, i => if text.length ≤ i then some [] else none
  | fuel + 1, i =>
    if h : i < text.length then
      (humanTypeLoop r base rate text fuel (i + 1)).map
        (fun rest => stepActs r base rate i (text.get ⟨i, h⟩) ++ rest)
    else some []

/-- Line 394: `chars_per_sec = (wpm * 5) / 60`. -/
def charsPerSec (wpm : ℤ) : ℚ := (wpm * 5 : ℚ) / 60

/-- The timing profile derived from the speed parameter: lines 394-395. -/
structure TimingProfile where
  charsPerSecond : ℚ
  baseDelay : ℚ
deriving DecidableEq, Repr

/-- The failure of `base_delay = 1.0 / chars_per_sec` when the divisor is
zero (Python raises `ZeroDivisionError`). -/
inductive DeriveError where
  | zeroDivision
deriving DecidableEq, Repr

/-- The timing-model derivation on lines 394-395: `chars_per_sec =
(wpm * 5) / 60` and `base_delay = 1.0 / chars_per_sec`.  In Python the
division `1.0 / chars_per_sec` raises `ZeroDivisionError` exactly when
`chars_per_sec` is zero, i.e. when `wpm = 0`. -/
def derive (wpm : ℤ) : Except DeriveError TimingProfile :=
  if charsPerSec wpm = 0 then Except.error DeriveError.zeroDivision
  else Except.ok ⟨charsPerSec wpm, 1 / charsPerSec wpm⟩

/-- The `base_delay` value as used by `human_type` for a positive speed. -/
def baseDelay (wpm : ℤ) : ℚ := 1 / charsPerSec wpm

/-- The full typing engine `human_type(text, wpm, typo_rate)`
(lines 393-426), producing the ordered list of actions and sleeps. -/
def human_type (r : Rng) (wpm : ℤ) (rate : ℚ) (text : List Char) : List Action :=
  humanTypeGo r (baseDelay wpm) rate text 0

/-- The sleep duration attached to an action: `pause d` sleeps `d`, every
other action returns immediately. -/
def delayOf : Action → ℚ
  | Action.pause d => d
  | _ => 0

/-- The total simulated duration of an action sequence: the sum of all
sleeps. -/
def totalDelay (l : List Action) : ℚ := (l.map delayOf).sum

/-- The characters written through `pyautogui.write`, in order (both typo
letters and literal payload characters). -/
def writesOf (l : List Action) : List Char :=
  l.filterMap (fun a =>
    match a with
    | Action.writeChar c => some c
    | _ => none)

/-- The exceptions the simulation loop can see: `pyautogui.FailSafeException`
(the emergency abort of the input sink), `KeyboardInterrupt` (user
cancellation), and `IndexError` (what `random.choice` raises on an empty
sequence).  The `try` block of `simulate` catches only the first two
(lines 486-489). -/
inductive ExcKind where
  | failSafe
  | keyboardInterrupt
  | indexError
deriving DecidableEq, Repr

/-- What one pass through the body of the `while True` loop of `simulate`
does: either it completes, having emitted a list of actions, or an exception
unwinds out of it after a prefix of actions was emitted. -/
inductive SessionOutcome where
  | completes (acts : List Action)
  | raises (emitted : List Action) (e : ExcKind)
deriving Repr

/-- How a run of `simulate` ends.  `outOfFuel` marks a run truncated by the
observation bound (the real loop would keep going); the other three are the
ways control actually leaves `simulate`: the two `except` arms on lines
486-489, and an uncaught exception propagating out of the function. -/
inductive RunResult where
  | outOfFuel
  | stoppedFailSafe
  | stoppedByUser
  | crashed
deriving DecidableEq, Repr

/-- The `try`/`while True` loop of `simulate` (lines 462-489), observed for
`fuel` iterations starting at session number `s`.  A completing session
contributes its actions and the loop continues; a `FailSafeException` or
`KeyboardInterrupt` is caught and stops the run cleanly; any other exception
propagates out of `simulate` uncaught. -/
def simulateLoop (outcome : ℕ → SessionOutcome) : ℕ → ℕ → List Action × RunResult
  | 0, _ => ([], RunResult.outOfFuel)
  | fuel + 1, s =>
    match outcome s with
    | SessionOutcome.completes acts =>
      let rest := simulateLoop outcome fuel (s + 1)
      (acts ++ rest.1, rest.2)
    | SessionOutcome.raises pre ExcKind.failSafe => (pre, RunResult.stoppedFailSafe)
    | SessionOutcome.raises pre ExcKind.keyboardInterrupt => (pre, RunResult.stoppedByUser)
    | SessionOutcome.raises pre ExcKind.indexError => (pre, RunResult.crashed)

/-- Lines 431-433, `pick_file`: `random.choice(files)` over the enumerated
project files.  `random.choice` on an empty sequence raises `IndexError`;
on a nonempty one it returns the element at the drawn index. -/
def pick_file (files : List String) (k : ℕ) : Except ExcKind String :=
  match files with
  | [] => Except.error ExcKind.indexError
  | f :: fs => Except.ok ((f :: fs).getD (k % (f :: fs).length) f)

/-- Per-session data for the scheduler model: the `random.choice` index used
by `pick_file`, the snippet the corpus provider supplies, the typing
engine's random draws, and the point (if any) at which the input sink
raises `FailSafeException` during this session (the action index before
which the abort fires). -/
structure SessionPlan where
  choiceIdx : ℕ
  snippet : List Char
  rng : Rng
  abortAfter : Option ℕ

/-- Feeding a planned action sequence through the input sink: with no abort
the whole sequence is realized; with an abort before action `k` of the plan,
only the first `k` actions are realized and `FailSafeException` unwinds. -/
def sinkRun (planned : List Action) : Option ℕ → SessionOutcome
  | none => SessionOutcome.completes planned
  | some k =>
    if k < planned.length then
      SessionOutcome.raises (planned.take k) ExcKind.failSafe
    else SessionOutcome.completes planned

/-- One pass through the body of the `simulate` loop: `pick_file` first
(line 464); if it raises, the exception escapes with nothing emitted,
otherwise the typing engine runs against the input sink. -/
def sessionOutcome (files : List String) (wpm : ℤ) (rate : ℚ)
    (p : SessionPlan) : SessionOutcome :=
  match pick_file files p.choiceIdx with
  | Except.error e => SessionOutcome.raises [] e
  | Except.ok _ => sinkRun (human_type p.rng wpm rate p.snippet) p.abortAfter

/-- The whole of `simulate` (lines 458-489) for a fixed project file list,
observed for `fuel` sessions. -/
def simulate (files : List String) (wpm : ℤ) (rate : ℚ)
    (plans : ℕ → SessionPlan) (fuel : ℕ) : List Action × RunResult :=
  simulateLoop (fun s => sessionOutcome files wpm rate (plans s)) fuel 0

/-- The argument validation performed by `main` before any session runs
(lines 520-523): the only check is `args.max_interval > 15`, which
`parser.error` turns into an immediate exit.  Neither `wpm` nor
`typo_rate` is inspected. -/
inductive ConfigError where
  | maxIntervalTooLarge
deriving DecidableEq, Repr

/-- The configuration-time validation in `main` (lines 520-523). -/
def checkArgs (wpm : ℤ) (typoRate : ℚ) (maxInterval : ℤ) :
    Except ConfigError Unit :=
  if maxInterval > 15 then Except.error ConfigError.maxIntervalTooLarge
  else Except.ok ()

/-- A concrete random oracle with every draw inside its guaranteed range,
used to evaluate the engine on concrete inputs. -/
def constRng : Rng where
  typoDraw := fun _ => 1/2
  wrongIdx := fun _ => 0
  typoPause1 := fun _ => 1
  typoPause2 := fun _ => 3/2
  structPause := fun _ => 2
  nlPause := fun _ => 2
  tabPause := fun _ => 1
  gauss := fun _ => 0

lemma constRng_valid : constRng.Valid := by
  refine ⟨fun i => ?_, fun i => ?_, fun i => ?_, fun i => ?_, fun i => ?_, fun i => ?_⟩ <;>
    simp [constRng] <;> norm_num

/-- C2: the claim says every `maxIntervalSeconds` outside `[3, 15]` is
rejected at configuration time.  The code (and its own help text, which
states "min 3") rejects only values above 15: `--max-interval 1` passes
validation unchanged, while 16 is rejected.  This theorem evaluates the
configuration check at the failing input. -/
theorem c2_accepts_below_floor :
    checkArgs 60 (3/100) 1 = Except.ok () ∧ (1 : ℤ) < 3 ∧
    checkArgs 60 (3/100) 16 = Except.error ConfigError.maxIntervalTooLarge := by
  refine ⟨?_, by norm_num, ?_⟩ <;> rfl

/-- C5 counterexample: `speedWpm = -5 ≤ 0` is not rejected at configuration
time — `main`'s validation accepts it, and the derivation succeeds with a
(negative) profile instead of failing with `InvalidParameter`. -/
theorem c5_counterexample :
    checkArgs (-5) (3/100) 10 = Except.ok () ∧
    derive (-5) = Except.ok ⟨-5/12, -12/5⟩ ∧ (-5 : ℤ) ≤ 0 := by
  refine ⟨rfl, ?_, by norm_num⟩
  have h : charsPerSec (-5) = -5/12 := by norm_num [charsPerSec]
  simp only [derive, h]
  norm_num

/-- C5 amended: the derivation is pure and total for every `speedWpm ≠ 0`
(negative speeds included); for `speedWpm = 0` it fails with a
division-by-zero error, and this failure happens at typing time, not at
configuration time — `main`'s validation inspects only `maxInterval` and
accepts every `speedWpm`. -/
theorem c5_amended_thm (wpm : ℤ) :
    (wpm ≠ 0 → derive wpm = Except.ok ⟨charsPerSec wpm, 1 / charsPerSec wpm⟩) ∧
    (wpm = 0 → derive wpm = Except.error DeriveError.zeroDivision) ∧
    ∀ (tr : ℚ) (mi : ℤ), mi ≤ 15 → checkArgs wpm tr mi = Except.ok () := by
  have hiff : charsPerSec wpm = 0 ↔ wpm = 0 := by
    unfold charsPerSec
    constructor
    · intro h
      have h5 : (wpm * 5 : ℚ) = 0 := by
        field_simp at h
        exact_mod_cast h
      have : (wpm : ℚ) = 0 := by linarith [h5]
      exact_mod_cast this
    · intro h; subst h; norm_num
  refine ⟨fun h => ?_, fun h => ?_, fun tr mi hmi => ?_⟩
  · simp [derive, hiff, h]
  · subst h
    norm_num [derive, charsPerSec]
  · simp [checkArgs, not_lt.mpr hmi]

/-- C5 witness: the amended statement evaluated at `speedWpm = -5` and
`speedWpm = 0`. -/
theorem c5_amended_witness :
    derive (-5) = Except.ok ⟨charsPerSec (-5), 1 / charsPerSec (-5)⟩ ∧
    derive 0 = Except.error DeriveError.zeroDivision ∧
    checkArgs (-5) (3/100) 1 = Except.ok () :=
  ⟨(c5_amended_thm (-5)).1 (by norm_num),
   (c5_amended_thm 0).2.1 rfl,
   (c5_amended_thm (-5)).2.2 (3/100) 1 (by norm_num)⟩

/-- C7 counterexample: `derive(60)` yields `baseDelay = 1/5` (0.2 seconds:
300 characters per minute), not `1.0` as the claim's "in particular"
asserts — the claim's own formula `60 / (speedWpm × 5)` gives `60/300`. -/
theorem c7_counterexample :
    derive 60 = Except.ok ⟨5, 1/5⟩ ∧ ((1 : ℚ)/5) ≠ 1 := by
  constructor
  · have h : charsPerSec 60 = 5 := by norm_num [charsPerSec]
    simp only [derive, h]
    norm_num
  · norm_num

/-- C7 amended: for every `speedWpm > 0` the derived profile satisfies
`baseDelay = 60 / (speedWpm × 5)` exactly (equivalently `charsPerSecond =
speedWpm * 5 / 60` and `baseDelay = 1 / charsPerSecond`); in particular
`speedWpm = 60` yields `baseDelay = 1/5`, and `baseDelay = 1.0` is attained
at `speedWpm = 12`. -/
theorem c7_amended_thm (wpm : ℤ) (h : 0 < wpm) :
    derive wpm = Except.ok ⟨(wpm * 5 : ℚ) / 60, 60 / (wpm * 5 : ℚ)⟩ ∧
    baseDelay wpm = 60 / (wpm * 5 : ℚ) ∧
    baseDelay 60 = 1/5 ∧ baseDelay 12 = 1 := by
  have hw : (wpm : ℚ) ≠ 0 := by
    exact_mod_cast (ne_of_gt h)
  have hwq : (0 : ℚ) < (wpm : ℚ) := by exact_mod_cast h
  have hcps : charsPerSec wpm ≠ 0 := by
    have : 0 < charsPerSec wpm := by
      unfold charsPerSec
      apply div_pos (by linarith) (by norm_num)
    exact ne_of_gt this
  have hbase : baseDelay wpm = 60 / (wpm * 5 : ℚ) := by
    unfold baseDelay charsPerSec
    rw [one_div_div]
  refine ⟨?_, hbase, by norm_num [baseDelay, charsPerSec], by norm_num [baseDelay, charsPerSec]⟩
  unfold derive
  rw [if_neg hcps]
  unfold charsPerSec
  rw [one_div_div]

/-- C7 witness: the amended statement evaluated at `speedWpm = 60`. -/
theorem c7_amended_witness :
    derive 60 = Except.ok ⟨(60 * 5 : ℚ) / 60, 60 / (60 * 5 : ℚ)⟩ ∧
    baseDelay 60 = 60 / (60 * 5 : ℚ) :=
  ⟨(c7_amended_thm 60 (by norm_num)).1, (c7_amended_thm 60 (by norm_num)).2.1⟩

/-- How each exception kind leaves `simulate`: the two caught ones stop the
run cleanly, an `IndexError` propagates out uncaught. -/
def stopOf : ExcKind → RunResult
  | ExcKind.failSafe => RunResult.stoppedFailSafe
  | ExcKind.keyboardInterrupt => RunResult.stoppedByUser
  | ExcKind.indexError => RunResult.crashed

lemma simulateLoop_succ_completes (outcome : ℕ → SessionOutcome) (fuel s : ℕ)
    (a : List Action) (h : outcome s = SessionOutcome.completes a) :
    simulateLoop outcome (fuel + 1) s
      = (a ++ (simulateLoop outcome fuel (s + 1)).1,
         (simulateLoop outcome fuel (s + 1)).2) := by
  simp [simulateLoop, h]

lemma simulateLoop_succ_raises (outcome : ℕ → SessionOutcome) (fuel s : ℕ)
    (pre : List Action) (e : ExcKind)
    (h : outcome s = SessionOutcome.raises pre e) :
    simulateLoop outcome (fuel + 1) s = (pre, stopOf e) := by
  cases e <;> simp [simulateLoop, h, stopOf]

/-- Sessions that complete merely prepend their actions: the loop at fuel
`s + fuel` starting at `start` runs the `s` completing sessions and then
continues as the loop at fuel `fuel` from `start + s`. -/
lemma simulateLoop_skip (outcome : ℕ → SessionOutcome) (acts : ℕ → List Action) :
    ∀ (s start fuel : ℕ),
      (∀ t, t < s → outcome (start + t) = SessionOutcome.completes (acts (start + t))) →
      simulateLoop outcome (s + fuel) start
        = (((List.range s).map (fun t => acts (start + t))).join
            ++ (simulateLoop outcome fuel (start + s)).1,
           (simulateLoop outcome fuel (start + s)).2) := by
  intro s
  induction s with
  | zero =>
    intro start fuel _
    simp
  | succ n ih =>
    intro start fuel h
    have hstep : outcome start = SessionOutcome.completes (acts start) := by
      have h0 := h 0 (Nat.succ_pos n)
      simpa using h0
    have harith : n + 1 + fuel = (n + fuel) + 1 := by omega
    rw [harith, simulateLoop_succ_completes outcome (n + fuel) start (acts start) hstep]
    have hrest := ih (start + 1) fuel (fun t ht => by
      have h2 := h (t + 1) (by omega)
      have he : start + (t + 1) = start + 1 + t := by omega
      rw [he] at h2
      exact h2)
    have harith2 : start + 1 + n = start + (n + 1) := by omega
    rw [harith2] at hrest
    rw [hrest]
    have hf : (List.map (fun t => acts (start + 1 + t)) (List.range n))
        = (List.map (fun t => acts (start + Nat.succ t)) (List.range n)) := by
      apply List.map_congr_left
      intro t _
      congr 1
      omega
    rw [List.range_succ_eq_map, List.map_cons, List.map_map]
    simp only [Function.comp, Nat.add_zero, hf, List.join]
    simp [List.append_assoc]
    congr 1

/-- A session whose input sink aborts before action `k` of the planned
payload raises `FailSafeException` with exactly the first `k` actions
emitted. -/
lemma sessionOutcome_abort (files : List String) (wpm : ℤ) (rate : ℚ)
    (p : SessionPlan) (k : ℕ) (f : String)
    (hpick : pick_file files p.choiceIdx = Except.ok f)
    (habort : p.abortAfter = some k)
    (hmid : k < (human_type p.rng wpm rate p.snippet).length) :
    sessionOutcome files wpm rate p
      = SessionOutcome.raises ((human_type p.rng wpm rate p.snippet).take k)
          ExcKind.failSafe := by
  unfold sessionOutcome
  rw [hpick, habort]
  simp [sinkRun, hmid]

/-- C4 counterexample: with a corpus of zero targets, `pick_file` raises
`IndexError` (`random.choice` on an empty sequence), and `simulate` does
not catch it — the run ends immediately as a crash with no actions emitted
and no retry, contradicting the claimed log-and-retry behavior. -/
theorem c4_counterexample :
    pick_file [] 0 = Except.error ExcKind.indexError ∧
    simulate [] 60 (3/100) (fun _ => ⟨0, [], constRng, none⟩) 5
      = ([], RunResult.crashed) := by
  exact ⟨rfl, rfl⟩

/-- C4 amended: when the corpus contains zero targets, target selection
raises `IndexError`, which the scheduler's `try` block does not catch
(it catches only `FailSafeException` and `KeyboardInterrupt`): the error
propagates upward and terminates the run on the very first iteration — no
logging, no retry, regardless of how much longer the loop could run. -/
theorem c4_amended_thm (wpm : ℤ) (rate : ℚ) (plans : ℕ → SessionPlan)
    (fuel s : ℕ) (h : 1 ≤ fuel) :
    (∀ k, pick_file [] k = Except.error ExcKind.indexError) ∧
    simulateLoop (fun t => sessionOutcome [] wpm rate (plans t)) fuel s
      = ([], RunResult.crashed) := by
  refine ⟨fun k => rfl, ?_⟩
  obtain ⟨n, rfl⟩ : ∃ n, fuel = n + 1 := ⟨fuel - 1, by omega⟩
  exact simulateLoop_succ_raises _ n s [] ExcKind.indexError rfl

/-- C4 witness: the amended statement evaluated on a concrete run of three
observed iterations. -/
theorem c4_amended_witness :
    (∀ k, pick_file [] k = Except.error ExcKind.indexError) ∧
    simulateLoop
        (fun t => sessionOutcome [] 60 (3/100) ((fun _ => ⟨0, ['a'], constRng, none⟩ : ℕ → SessionPlan) t))
        3 0
      = ([], RunResult.crashed) :=
  c4_amended_thm 60 (3/100) (fun _ => ⟨0, ['a'], constRng, none⟩) 3 0 (by norm_num)

/-- C6: if the input sink raises `FailSafeException` (the emergency abort)
mid-payload during session `s` — after any number of fully completed earlier
sessions — the whole run stops there: the emitted actions are exactly the
completed sessions' actions followed by the aborted session's prefix, the
run result is the terminal `stoppedFailSafe`, and no action of that session's
remainder or of any subsequent session is emitted, no matter how much fuel
the loop still has. -/
theorem c6_thm (files : List String) (wpm : ℤ) (rate : ℚ)
    (plans : ℕ → SessionPlan) (acts : ℕ → List Action) (s k fuel : ℕ) (f : String)
    (hbefore : ∀ t, t < s →
      sessionOutcome files wpm rate (plans t) = SessionOutcome.completes (acts t))
    (hpick : pick_file files (plans s).choiceIdx = Except.ok f)
    (habort : (plans s).abortAfter = some k)
    (hmid : k < (human_type (plans s).rng wpm rate (plans s).snippet).length) :
    simulateLoop (fun t => sessionOutcome files wpm rate (plans t)) (s + (fuel + 1)) 0
      = (((List.range s).map acts).join
          ++ (human_type (plans s).rng wpm rate (plans s).snippet).take k,
         RunResult.stoppedFailSafe) := by
  have hskip := simulateLoop_skip (fun t => sessionOutcome files wpm rate (plans t))
    acts s 0 (fuel + 1) (fun t ht => by simpa using hbefore t ht)
  have habortOut := sessionOutcome_abort files wpm rate (plans s) k f hpick habort hmid
  have hstop := simulateLoop_succ_raises
    (fun t => sessionOutcome files wpm rate (plans t)) fuel s
    ((human_type (plans s).rng wpm rate (plans s).snippet).take k)
    ExcKind.failSafe habortOut
  simp only [Nat.zero_add] at hskip
  rw [hskip, hstop]
  simp [stopOf]

/-- C6 witness: one completed session over a one-file corpus, then a session
whose sink aborts before its second action. -/
theorem c6_witness :
    simulateLoop
        (fun t => sessionOutcome ["a"] 60 0
          (((fun t => if t = 0 then (⟨0, ['a'], constRng, none⟩ : SessionPlan)
              else ⟨0, ['a', 'b'], constRng, some 1⟩) : ℕ → SessionPlan) t))
        (1 + (2 + 1)) 0
      = (((List.range 1).map
            (fun _ => human_type constRng 60 0 ['a'])).join
          ++ (human_type constRng 60 0 ['a', 'b']).take 1,
         RunResult.stoppedFailSafe) :=
  c6_thm ["a"] 60 0
    (fun t => if t = 0 then ⟨0, ['a'], constRng, none⟩ else ⟨0, ['a', 'b'], constRng, some 1⟩)
    (fun _ => human_type constRng 60 0 ['a']) 1 1 2 "a"
    (fun t ht => by interval_cases t; rfl)
    rfl rfl
    (by simp +decide [human_type, humanTypeGo, stepActs, structChar, constRng])

lemma structChar_cases (c : Char) (h : structChar c = true) :
    c = '.' ∨ c = ':' ∨ c = '(' ∨ c = ')' := by
  simp [structChar] at h
  tauto

lemma structChar_not_alpha (c : Char) (h : structChar c = true) :
    c.isAlpha = false := by
  rcases structChar_cases c h with h1 | h1 | h1 | h1 <;> subst h1 <;> decide

lemma structChar_ne_ws (c : Char) (h : structChar c = true) :
    c ≠ '\n' ∧ c ≠ '\t' := by
  rcases structChar_cases c h with h1 | h1 | h1 | h1 <;> subst h1 <;> exact ⟨by decide, by decide⟩

lemma alpha_plain (c : Char) (h : c.isAlpha = true) :
    structChar c = false ∧ c ≠ '\n' ∧ c ≠ '\t' := by
  refine ⟨?_, ?_, ?_⟩
  · cases hs : structChar c
    · rfl
    · rw [structChar_not_alpha c hs] at h
      cases h
  · intro hc; subst hc; simp at h
  · intro hc; subst hc; simp at h

lemma charsPerSec_pos (wpm : ℤ) (h : 0 < wpm) : 0 < charsPerSec wpm := by
  have hwq : (0 : ℚ) < (wpm : ℚ) := by exact_mod_cast h
  unfold charsPerSec
  apply div_pos (by linarith) (by norm_num)

lemma baseDelay_pos (wpm : ℤ) (h : 0 < wpm) : 0 < baseDelay wpm :=
  one_div_pos.mpr (charsPerSec_pos wpm h)

/-- C3 counterexample: for the payload `"."` at `speedWpm = 60`
(`baseDelay = 1/5`) with the Gaussian jitter drawn at 0, the engine emits
`[Pause 2/5, WriteChar '.', Pause 1/5]`: the `[1.5, 3.0] × baseDelay` pause
comes BEFORE the write of `'.'`, and the action immediately following the
write is the ordinary jittered pause `1/5`, which is strictly below the
claimed lower bound `1.5 × baseDelay = 3/10`. -/
theorem c3_counterexample :
    constRng.Valid ∧
    human_type constRng 60 0 ['.']
      = [Action.pause (2/5), Action.writeChar '.', Action.pause (1/5)] ∧
    (1 : ℚ)/5 < 3/2 * baseDelay 60 := by
  refine ⟨constRng_valid, ?_, by norm_num [baseDelay, charsPerSec]⟩
  simp +decide [human_type, humanTypeGo, stepActs, structChar, constRng, baseDelay, charsPerSec]
  norm_num

/-- C3 amended: for every payload character `c ∈ {'.', ':', '(', ')'}`, a
pause of duration in `[1.5 × baseDelay, 3.0 × baseDelay]` immediately
PRECEDES the emission (`WriteChar`) of `c`; the action immediately following
the emission is the ordinary jittered per-character pause
`max(0.01, baseDelay + jitter)`. -/
theorem c3_amended_thm (r : Rng) (base rate : ℚ) (c : Char) (rest : List Char)
    (i : ℕ) (hv : r.Valid) (hb : 0 ≤ base) (hc : structChar c = true) :
    humanTypeGo r base rate (c :: rest) i
      = Action.pause (base * r.structPause i)
        :: Action.writeChar c
        :: Action.pause (max (1/100) (base + r.gauss i))
        :: humanTypeGo r base rate rest (i + 1)
    ∧ 3/2 * base ≤ base * r.structPause i
    ∧ base * r.structPause i ≤ 3 * base := by
  have halpha := structChar_not_alpha c hc
  have hsp := hv.2.2.2.1 i
  refine ⟨?_, ?_, ?_⟩
  · show stepActs r base rate i c ++ humanTypeGo r base rate rest (i + 1) = _
    unfold stepActs
    rw [halpha]
    simp [hc]
  · nlinarith [hsp.1]
  · nlinarith [hsp.2]

/-- C3 witness: the amended statement evaluated for the payload `"."` at
`baseDelay = 1`. -/
theorem c3_amended_witness :
    humanTypeGo constRng 1 0 ['.'] 0
      = Action.pause (1 * constRng.structPause 0)
        :: Action.writeChar '.'
        :: Action.pause (max (1/100) (1 + constRng.gauss 0))
        :: humanTypeGo constRng 1 0 [] 1
    ∧ 3/2 * 1 ≤ 1 * constRng.structPause 0
    ∧ 1 * constRng.structPause 0 ≤ 3 * 1 :=
  c3_amended_thm constRng 1 0 '.' [] 0 constRng_valid (by norm_num) (by decide)

lemma writesOf_append (a b : List Action) :
    writesOf (a ++ b) = writesOf a ++ writesOf b := by
  unfold writesOf
  exact List.filterMap_append a b _

/-- The characters one loop iteration writes: the optional wrong letter of a
fired typo, then the literal character unless it is a newline or a tab
(those are realized as key presses instead). -/
lemma writesOf_stepActs (r : Rng) (base rate : ℚ) (i : ℕ) (c : Char) :
    writesOf (stepActs r base rate i c)
      = (if c.isAlpha ∧ r.typoDraw i < rate then [wrongLetter (r.wrongIdx i)] else [])
        ++ (if c = '\n' ∨ c = '\t' then [] else [c]) := by
  unfold stepActs
  rw [writesOf_append]
  congr 1
  · by_cases h : c.isAlpha ∧ r.typoDraw i < rate <;> simp [h, writesOf]
  · by_cases hs : structChar c
    · have hws := structChar_ne_ws c hs
      simp [hs, hws.1, hws.2, writesOf]
    · by_cases hn : c = '\n'
      · simp +decide [hn, writesOf, structChar]
      · by_cases ht : c = '\t'
        · simp +decide [hn, ht, writesOf, structChar]
        · simp [hs, hn, ht, writesOf]

/-- An alphabetic character whose typo draw is below the rate produces the
typo-correction pair (wrong letter, pause, backspace, pause) immediately
followed by the literal write and its jittered pause. -/
lemma stepActs_alpha_fired (r : Rng) (base rate : ℚ) (i : ℕ) (c : Char)
    (halpha : c.isAlpha = true) (hdraw : r.typoDraw i < rate) :
    stepActs r base rate i c
      = [Action.writeChar (wrongLetter (r.wrongIdx i)),
         Action.pause (base * r.typoPause1 i),
         Action.backspace,
         Action.pause (base * r.typoPause2 i),
         Action.writeChar c,
         Action.pause (max (1/100) (base + r.gauss i))] := by
  have hplain := alpha_plain c halpha
  unfold stepActs
  rw [hplain.1]
  simp [halpha, hdraw, hplain.2.1, hplain.2.2]

/-- C1 counterexample: the payload `"\n"` is never emitted as a `WriteChar`:
the engine realizes a newline as a `PressEnter` key press, so the literal
`WriteChar '\n'` the claim requires (exactly once per payload character)
appears zero times. -/
theorem c1_counterexample :
    constRng.Valid ∧
    human_type constRng 60 0 ['\n']
      = [Action.pressEnter, Action.pause (2/5)] ∧
    writesOf (human_type constRng 60 0 ['\n']) = [] := by
  refine ⟨constRng_valid, ?_, ?_⟩
  · simp +decide [human_type, humanTypeGo, stepActs, structChar, constRng,
      baseDelay, charsPerSec]
    norm_num
  · simp +decide [human_type, humanTypeGo, stepActs, structChar, constRng, writesOf]

/-- C1 amended: every payload character other than `'\n'` and `'\t'` is
emitted as a literal `WriteChar` exactly once, in original order (`'\n'` is
realized as `PressEnter` and `'\t'` as `PressTab` instead); typo-corrective
emissions are additional — a fired typo contributes exactly one extra wrong
letter placed immediately before its corrected character, as the block
`WriteChar(wrong), Pause, Backspace, Pause` directly preceding the literal
`WriteChar`. -/
theorem c1_amended_thm (r : Rng) (base rate : ℚ) :
    (∀ (text : List Char) (i : ℕ),
      writesOf (humanTypeGo r base rate text i)
        = (text.enumFrom i).flatMap (fun p =>
            (if p.2.isAlpha ∧ r.typoDraw p.1 < rate then [wrongLetter (r.wrongIdx p.1)]
             else [])
            ++ (if p.2 = '\n' ∨ p.2 = '\t' then [] else [p.2])))
    ∧ (∀ (i : ℕ) (c : Char), c.isAlpha = true → r.typoDraw i < rate →
        stepActs r base rate i c
          = [Action.writeChar (wrongLetter (r.wrongIdx i)),
             Action.pause (base * r.typoPause1 i),
             Action.backspace,
             Action.pause (base * r.typoPause2 i),
             Action.writeChar c,
             Action.pause (max (1/100) (base + r.gauss i))]) := by
  constructor
  · intro text
    induction text with
    | nil =>
      intro i
      simp [humanTypeGo, writesOf, List.enumFrom]
    | cons c rest ih =>
      intro i
      show writesOf (stepActs r base rate i c ++ humanTypeGo r base rate rest (i + 1)) = _
      rw [writesOf_append, writesOf_stepActs, ih]
      rfl
  · intro i c halpha hdraw
    exact stepActs_alpha_fired r base rate i c halpha hdraw

/-- C1 witness: the amended statement evaluated on the payload `"a\n"` with
the typo draw below the rate (typo fires on `'a'`), and the typo-block shape
at a fired position. -/
theorem c1_amended_witness :
    writesOf (humanTypeGo constRng 1 (3/4) ['a', '\n'] 0)
      = ((['a', '\n'] : List Char).enumFrom 0).flatMap (fun p =>
          (if p.2.isAlpha ∧ constRng.typoDraw p.1 < 3/4 then [wrongLetter (constRng.wrongIdx p.1)]
           else [])
          ++ (if p.2 = '\n' ∨ p.2 = '\t' then [] else [p.2]))
    ∧ stepActs constRng 1 (3/4) 0 'a'
        = [Action.writeChar (wrongLetter (constRng.wrongIdx 0)),
           Action.pause (1 * constRng.typoPause1 0),
           Action.backspace,
           Action.pause (1 * constRng.typoPause2 0),
           Action.writeChar 'a',
           Action.pause (max (1/100) (1 + constRng.gauss 0))] :=
  ⟨(c1_amended_thm constRng 1 (3/4)).1 ['a', '\n'] 0,
   (c1_amended_thm constRng 1 (3/4)).2 0 'a' (by decide) (by norm_num [constRng])⟩

lemma wrongLetter_mem (n : ℕ) : wrongLetter n ∈ lowercaseLetters := by
  unfold wrongLetter
  have h : n % 26 < lowercaseLetters.length := by
    have hl : lowercaseLetters.length = 26 := rfl
    omega
  rw [List.getD_eq_getElem lowercaseLetters 'a' h]
  exact List.getElem_mem h

/-- When every typo draw fires, an all-alphabetic payload is typed as one
six-action block per character. -/
lemma humanTypeGo_all_alpha_fired (r : Rng) (base rate : ℚ)
    (hfire : ∀ i, r.typoDraw i < rate) :
    ∀ (text : List Char), (∀ c ∈ text, c.isAlpha = true) →
    ∀ i, humanTypeGo r base rate text i
      = (text.enumFrom i).flatMap (fun p =>
          [Action.writeChar (wrongLetter (r.wrongIdx p.1)),
           Action.pause (base * r.typoPause1 p.1),
           Action.backspace,
           Action.pause (base * r.typoPause2 p.1),
           Action.writeChar p.2,
           Action.pause (max (1/100) (base + r.gauss p.1))]) := by
  intro text
  induction text with
  | nil =>
    intro _ i
    simp [humanTypeGo, List.enumFrom]
  | cons c rest ih =>
    intro halpha i
    show stepActs r base rate i c ++ humanTypeGo r base rate rest (i + 1) = _
    rw [stepActs_alpha_fired r base rate i c (halpha c (List.mem_cons_self c rest)) (hfire i),
      ih (fun d hd => halpha d (List.mem_cons_of_mem c hd)) (i + 1)]
    rfl

/-- C8: with `typoRate = 1.0` and an all-alphabetic payload, every literal
`WriteChar` of a payload character is preceded by exactly one
typo-correction pair — the output is exactly one
`WriteChar(wrong), Pause, Backspace, Pause, WriteChar(c), Pause` block per
payload character, and every wrong letter is one of the 26 lowercase
letters that `random.choice` draws from. -/
theorem c8_thm (r : Rng) (base : ℚ) (text : List Char)
    (hv : r.Valid) (halpha : ∀ c ∈ text, c.isAlpha = true) :
    humanTypeGo r base 1 text 0
      = (text.enumFrom 0).flatMap (fun p =>
          [Action.writeChar (wrongLetter (r.wrongIdx p.1)),
           Action.pause (base * r.typoPause1 p.1),
           Action.backspace,
           Action.pause (base * r.typoPause2 p.1),
           Action.writeChar p.2,
           Action.pause (max (1/100) (base + r.gauss p.1))])
    ∧ ∀ n, wrongLetter n ∈ lowercaseLetters :=
  ⟨humanTypeGo_all_alpha_fired r base 1 (fun i => (hv.1 i).2) text halpha 0,
   wrongLetter_mem⟩

/-- C8 witness: the statement evaluated on the payload `"hi"`. -/
theorem c8_witness :
    humanTypeGo constRng 1 1 ['h', 'i'] 0
      = ((['h', 'i'] : List Char).enumFrom 0).flatMap (fun p =>
          [Action.writeChar (wrongLetter (constRng.wrongIdx p.1)),
           Action.pause (1 * constRng.typoPause1 p.1),
           Action.backspace,
           Action.pause (1 * constRng.typoPause2 p.1),
           Action.writeChar p.2,
           Action.pause (max (1/100) (1 + constRng.gauss p.1))])
    ∧ ∀ n, wrongLetter n ∈ lowercaseLetters :=
  c8_thm constRng 1 ['h', 'i'] constRng_valid
    (by intro c hc; simp at hc; rcases hc with h | h <;> subst h <;> decide)

lemma totalDelay_append (a b : List Action) :
    totalDelay (a ++ b) = totalDelay a + totalDelay b := by
  unfold totalDelay
  rw [List.map_append, List.sum_append]

/-- Every per-iteration sleep is nonnegative, and any iteration that ends in
the literal write sleeps at least `0.01`: a newline or tab iteration
contributes at least `0`, any other iteration at least `0.01`. -/
lemma totalDelay_stepActs_ge (r : Rng) (base rate : ℚ) (i : ℕ) (c : Char)
    (hv : r.Valid) (hb : 0 ≤ base) :
    (if c = '\n' ∨ c = '\t' then 0 else 1/100)
      ≤ totalDelay (stepActs r base rate i c) := by
  have h1 : 0 ≤ base * r.typoPause1 i :=
    mul_nonneg hb (by linarith [(hv.2.1 i).1])
  have h2 : 0 ≤ base * r.typoPause2 i :=
    mul_nonneg hb (by linarith [(hv.2.2.1 i).1])
  have h3 : 0 ≤ base * r.structPause i :=
    mul_nonneg hb (by linarith [(hv.2.2.2.1 i).1])
  have h4 : 0 ≤ base * r.nlPause i :=
    mul_nonneg hb (by linarith [(hv.2.2.2.2.1 i).1])
  have h5 : 0 ≤ base * r.tabPause i :=
    mul_nonneg hb (by linarith [(hv.2.2.2.2.2 i).1])
  have hmax : (1 : ℚ)/100 ≤ max (1/100) (base + r.gauss i) := le_max_left _ _
  unfold stepActs
  rw [totalDelay_append]
  have htypo : 0 ≤ totalDelay
      (if c.isAlpha ∧ r.typoDraw i < rate then
        [Action.writeChar (wrongLetter (r.wrongIdx i)),
         Action.pause (base * r.typoPause1 i),
         Action.backspace,
         Action.pause (base * r.typoPause2 i)]
       else []) := by
    by_cases h : c.isAlpha ∧ r.typoDraw i < rate
    · simp only [if_pos h, totalDelay, delayOf, List.map_cons, List.map_nil, List.sum_cons,
        List.sum_nil]
      linarith
    · simp [h, totalDelay]
  by_cases hs : structChar c
  · have hws := structChar_ne_ws c hs
    rw [if_neg (by tauto)]
    have : (1 : ℚ)/100 ≤ totalDelay
        [Action.pause (base * r.structPause i), Action.writeChar c,
         Action.pause (max (1/100) (base + r.gauss i))] := by
      simp only [totalDelay, delayOf, List.map_cons, List.map_nil, List.sum_cons, List.sum_nil]
      linarith
    simp only [if_pos hs]
    linarith
  · by_cases hn : c = '\n'
    · rw [if_pos (Or.inl hn)]
      simp only [if_neg hs, if_pos hn]
      have : (0 : ℚ) ≤ totalDelay [Action.pressEnter, Action.pause (base * r.nlPause i)] := by
        simp only [totalDelay, delayOf, List.map_cons, List.map_nil, List.sum_cons, List.sum_nil]
        linarith
      linarith
    · by_cases ht : c = '\t'
      · rw [if_pos (Or.inr ht)]
        simp only [if_neg hs, if_neg hn, if_pos ht]
        have : (0 : ℚ) ≤ totalDelay [Action.pressTab, Action.pause (base * r.tabPause i)] := by
          simp only [totalDelay, delayOf, List.map_cons, List.map_nil, List.sum_cons,
            List.sum_nil]
          linarith
        linarith
      · rw [if_neg (by tauto)]
        simp only [if_neg hs, if_neg hn, if_neg ht]
        have : (1 : ℚ)/100 ≤ totalDelay
            [Action.writeChar c, Action.pause (max (1/100) (base + r.gauss i))] := by
          simp only [totalDelay, delayOf, List.map_cons, List.map_nil, List.sum_cons,
            List.sum_nil]
          linarith
        linarith

/-- Summing the per-iteration bounds: total duration is at least `0.01`
times the number of characters that reach the literal write. -/
lemma totalDelay_go_ge (r : Rng) (base rate : ℚ) (hv : r.Valid) (hb : 0 ≤ base) :
    ∀ (text : List Char) (i : ℕ),
      ((text.filter (fun c => !(c = '\n' || c = '\t'))).length : ℚ) * (1/100)
        ≤ totalDelay (humanTypeGo r base rate text i) := by
  intro text
  induction text with
  | nil =>
    intro i
    simp [humanTypeGo, totalDelay]
  | cons c rest ih =>
    intro i
    show _ ≤ totalDelay (stepActs r base rate i c ++ humanTypeGo r base rate rest (i + 1))
    rw [totalDelay_append]
    have hstep := totalDelay_stepActs_ge r base rate i c hv hb
    have hrest := ih (i + 1)
    by_cases h : c = '\n' ∨ c = '\t'
    · rw [if_pos h] at hstep
      have hfil : (c :: rest).filter (fun c => !(c = '\n' || c = '\t'))
          = rest.filter (fun c => !(c = '\n' || c = '\t')) := by
        rcases h with h | h <;> subst h <;> simp [List.filter_cons]
      rw [hfil]
      linarith
    · rw [if_neg h] at hstep
      push_neg at h
      have hfil : (c :: rest).filter (fun c => !(c = '\n' || c = '\t'))
          = c :: rest.filter (fun c => !(c = '\n' || c = '\t')) := by
        simp [List.filter_cons, h.1, h.2]
      rw [hfil]
      push_cast [List.length_cons]
      linarith

/-- C9 counterexample: at `speedWpm = 6000` (`baseDelay = 1/500`) the
payload `"\n"` is realized as `PressEnter` followed by a sleep of
`baseDelay × 2 = 1/250` seconds (a legitimate `uniform(2.0, 4.0)` draw), so
the total session duration `1/250` is strictly below the claimed bound
`length(payload) × 0.01 = 1/100`. -/
theorem c9_counterexample :
    constRng.Valid ∧ (0 : ℤ) < 6000 ∧
    totalDelay (human_type constRng 6000 0 ['\n']) = 1/250 ∧
    ((1 : ℚ)/250) < (((['\n'] : List Char).length : ℚ)) * (1/100) := by
  refine ⟨constRng_valid, by norm_num, ?_, by norm_num⟩
  simp +decide [human_type, humanTypeGo, stepActs, structChar, constRng, totalDelay,
    delayOf, baseDelay, charsPerSec]
  norm_num

/-- C9 amended: for every payload, every `speedWpm > 0` and every valid
outcome of the random draws, the total simulated session duration is at
least `0.01` seconds per payload character other than `'\n'` and `'\t'`
(newlines and tabs are realized as key presses whose following sleep is
`baseDelay`-proportional and can drop below `0.01` at high speeds). -/
theorem c9_amended_thm (r : Rng) (rate : ℚ) (wpm : ℤ) (text : List Char)
    (hv : r.Valid) (hw : 0 < wpm) :
    ((text.filter (fun c => !(c = '\n' || c = '\t'))).length : ℚ) * (1/100)
      ≤ totalDelay (human_type r wpm rate text) :=
  totalDelay_go_ge r (baseDelay wpm) rate hv (le_of_lt (baseDelay_pos wpm hw)) text 0

/-- C9 witness: the amended bound evaluated on the payload `"a\n"` at
`speedWpm = 60`. -/
theorem c9_amended_witness :
    (((['a', '\n'] : List Char).filter (fun c => !(c = '\n' || c = '\t'))).length : ℚ) * (1/100)
      ≤ totalDelay (human_type constRng 60 (3/100) ['a', '\n']) :=
  c9_amended_thm constRng (3/100) 60 ['a', '\n'] constRng_valid (by norm_num)

/-- With at least `len(text) - i` iterations of fuel the loop finishes and
computes exactly the structural recursion over the remaining text. -/
lemma humanTypeLoop_some (r : Rng) (base rate : ℚ) (text : List Char) :
    ∀ (fuel i : ℕ), text.length ≤ i + fuel →
      humanTypeLoop r base rate text fuel i
        = some (humanTypeGo r base rate (text.drop i) i) := by
  intro fuel
  induction fuel with
  | zero =>
    intro i h
    rw [Nat.add_zero] at h
    simp only [humanTypeLoop]
    rw [if_pos h, List.drop_eq_nil_of_le h]
    rfl
  | succ n ih =>
    intro i h
    simp only [humanTypeLoop]
    by_cases hlt : i < text.length
    · rw [dif_pos hlt, ih (i + 1) (by omega), List.drop_eq_getElem_cons hlt]
      rfl
    · rw [dif_neg hlt, List.drop_eq_nil_of_le (le_of_not_lt hlt)]
      rfl

/-- With fewer than `len(text) - i` iterations of fuel the loop does not
finish: every iteration advances the position by exactly one. -/
lemma humanTypeLoop_none (r : Rng) (base rate : ℚ) (text : List Char) :
    ∀ (fuel i : ℕ), i + fuel < text.length →
      humanTypeLoop r base rate text fuel i = none := by
  intro fuel
  induction fuel with
  | zero =>
    intro i h
    simp only [humanTypeLoop]
    rw [if_neg (by omega)]
  | succ n ih =>
    intro i h
    simp only [humanTypeLoop]
    rw [dif_pos (by omega), ih (i + 1) (by omega)]
    rfl

/-- C10: the typing engine terminates on every finite payload, and the loop
performs exactly `len(text)` iterations: `len(text)` units of fuel suffice
(the loop completes and produces the action sequence of the structural
recursion), while any smaller amount of fuel runs out — because every
branch of every iteration advances the position index by exactly one. -/
theorem c10_thm (r : Rng) (base rate : ℚ) (text : List Char) :
    humanTypeLoop r base rate text text.length 0
      = some (humanTypeGo r base rate text 0)
    ∧ ∀ fuel, fuel < text.length → humanTypeLoop r base rate text fuel 0 = none := by
  constructor
  · have h := humanTypeLoop_some r base rate text text.length 0 (by omega)
    simpa using h
  · intro fuel h
    exact humanTypeLoop_none r base rate text fuel 0 (by omega)

/-- C10 witness: on the two-character payload `"ab"`, two units of fuel
complete the loop and one unit does not. -/
theorem c10_witness :
    humanTypeLoop constRng 1 0 ['a', 'b'] (['a', 'b'] : List Char).length 0
      = some (humanTypeGo constRng 1 0 ['a', 'b'] 0)
    ∧ humanTypeLoop constRng 1 0 ['a', 'b'] 1 0 = none :=
  ⟨(c10_thm constRng 1 0 ['a', 'b']).1,
   (c10_thm constRng 1 0 ['a', 'b']).2 1 (by decide)⟩

end Coder
